import Mathlib

/-!
# geojson4gtfs — verification of the GeoJSON-to-GTFS shape matcher

Shallow embedding of `src/geojson4gtfs/matcher.py` and
`src/geojson4gtfs/__main__.py`.

Geographic coordinates and distances are embedded as rationals.  The two
geometric primitives supplied by the external libraries (`pyproj.Geod`
geodesic distance between two points, and `shapely.ops.nearest_points`
projection of a point onto a linestring) are abstracted as fields of a
`Geod` structure: all theorems hold for every interpretation of these
primitives, and witnesses instantiate them with a concrete computable
taxicab metric.
-/

/-- A geographic point: `shapely.geometry.Point(lon, lat)`. -/
structure Point where
  lon : ℚ
  lat : ℚ
deriving DecidableEq, Repr

/-- A `shapely.geometry.LineString`: an ordered sequence of at least two
points (shapely rejects shorter sequences at construction). -/
structure LineString where
  p0 : Point
  p1 : Point
  rest : List Point
deriving DecidableEq, Repr

/-- The coordinate sequence `line_string.coords` of a linestring. -/
def LineString.coords (L : LineString) : List Point :=
  L.p0 :: L.p1 :: L.rest

/-- `line_string.coords[0]`. -/
def LineString.firstPt (L : LineString) : Point := L.p0

/-- `line_string.coords[-1]`. -/
def LineString.lastPt (L : LineString) : Point :=
  L.rest.getLastD L.p1

/-- The two geometric primitives taken from `pyproj` / `shapely`:
`dist p q` is the geodesic length of the two-point linestring `[p, q]`
(`Geod.geometry_length(LineString([p, q]))`, in meters), and
`nearest L p` is the point of `L` nearest to `p` as computed by
`shapely.ops.nearest_points(L, p)` (planar projection in lon/lat space). -/
structure Geod where
  dist : Point → Point → ℚ
  nearest : LineString → Point → Point

/-- `Geod.geometry_length` of a whole linestring: the sum of the geodesic
lengths of its consecutive segments. -/
def segmentSum (geod : Geod) : List Point → ℚ
  | p :: q :: rs => geod.dist p q + segmentSum geod (q :: rs)
  | _ => 0

/-- Total geodesic length of a linestring (meters). -/
def lineLength (geod : Geod) (L : LineString) : ℚ :=
  segmentSum geod L.coords

/-- One trip pattern of the GTFS index: the pattern id (`'#'.join` of the
stop ids), the ordered stop coordinates (nonempty by construction: a
pattern always has at least one stop), and the trip ids sharing the
pattern (`_gtfs_trip_patterns` / `_gtfs_trip_patterns_trip_ids`). -/
structure TripPattern where
  pid : String
  c0 : Point
  crest : List Point
  trips : List String
deriving DecidableEq, Repr

/-- `trip_pattern_coordinates` — the ordered stop coordinates. -/
def TripPattern.coords (p : TripPattern) : List Point :=
  p.c0 :: p.crest

/-- `start_point = trip_pattern_coordinates[0]` (matcher.py line 56). -/
def TripPattern.startPoint (p : TripPattern) : Point := p.c0

/-- `end_point = trip_pattern_coordinates[-1]` (matcher.py line 57). -/
def TripPattern.endPoint (p : TripPattern) : Point :=
  p.crest.getLastD p.c0

/-- The acceptance predicate of `GeojsonMatcher.run` (matcher.py lines
60–84) for one candidate linestring: the candidate survives iff its first
point is within 20 m of the pattern's first stop, its last point is within
20 m of the pattern's last stop, and every stop of the pattern is within
20 m of the linestring.  The threshold `20` is the literal that appears
three times in the source.  The projections collected at line 77 feed a
monotonicity check that the source disables (`line_projection_matched =
True`, line 80), so they do not influence the result and are omitted. -/
def survives (geod : Geod) (p : TripPattern) (L : LineString) : Bool :=
  if 20 < geod.dist L.firstPt p.startPoint then false
  else if 20 < geod.dist L.lastPt p.endPoint then false
  else p.coords.all (fun tpc => !(20 < geod.dist (geod.nearest L tpc) tpc))

/-- Modelled from the spec: the acceptance predicate as §4.3 of the spec
describes it, with the threshold a configurable parameter used by all
three checks, instead of the literal `20` the source hard-codes. -/
def survivesWithThreshold (geod : Geod) (threshold : ℚ) (p : TripPattern)
    (L : LineString) : Bool :=
  if threshold < geod.dist L.firstPt p.startPoint then false
  else if threshold < geod.dist L.lastPt p.endPoint then false
  else p.coords.all (fun tpc => !(threshold < geod.dist (geod.nearest L tpc) tpc))

/-- `line_string_candidates` (matcher.py lines 59–84): the surviving
candidates as (index, recorded total geodesic length) pairs, in
`enumerate` order.  `i` is the index of the first linestring of `ls`. -/
def candidatesFrom (geod : Geod) (p : TripPattern) :
    Nat → List LineString → List (Nat × ℚ)
  | _, [] => []
  | i, L :: ls =>
      (if survives geod p L then [(i, lineLength geod L)] else []) ++
        candidatesFrom geod p (i + 1) ls

/-- The surviving candidates of a pattern, over the whole geometry index. -/
def candidates (geod : Geod) (p : TripPattern) (lss : List LineString) :
    List (Nat × ℚ) :=
  candidatesFrom geod p 0 lss

/-- The reduction step of Python's built-in `min` with a key function:
keep the incumbent unless the challenger's key is strictly smaller. -/
def pickMin (best x : Nat × ℚ) : Nat × ℚ :=
  if x.2 < best.2 then x else best

/-- `min(line_string_candidates, key=line_string_candidates.get)`
(matcher.py line 88): the first key of the insertion-ordered dict whose
value is minimal; `none` when there is no candidate. -/
def pyMinAssoc : List (Nat × ℚ) → Option Nat
  | [] => none
  | c :: cs => some (cs.foldl pickMin c).1

/-- The index selected for a trip pattern (matcher.py lines 86–88),
`none` when no candidate survives. -/
def matchPattern (geod : Geod) (lss : List LineString) (p : TripPattern) :
    Option Nat :=
  pyMinAssoc (candidates geod p lss)

/-- Concrete interpretation of the geometric primitives used by witnesses
(the theorems hold for every `Geod`): squared Euclidean distance in
coordinate space, and a degenerate nearest-point projection. -/
def sqGeod : Geod where
  dist p q := (p.lon - q.lon) ^ 2 + (p.lat - q.lat) ^ 2
  nearest L _ := L.p0

/-- A pattern whose only two stops are 5 units apart in latitude. -/
def patFar : TripPattern := ⟨"p", ⟨0, 0⟩, [⟨0, 5⟩], ["t1"]⟩

/-- A candidate linestring sitting on the second stop of `patFar`: its
first point is at squared distance 25 from the pattern's first stop. -/
def lsFar : LineString := ⟨⟨0, 5⟩, ⟨0, 5⟩, []⟩

/-- A single-stop pattern at the origin. -/
def patZero : TripPattern := ⟨"p", ⟨0, 0⟩, [], ["t1"]⟩

/-- A candidate linestring lying exactly on `patZero`'s stop. -/
def lsZero : LineString := ⟨⟨0, 0⟩, ⟨0, 0⟩, []⟩

-- sanity examples (concrete evaluation)
example : sqGeod.dist ⟨0, 0⟩ ⟨0, 5⟩ = 25 := by norm_num [sqGeod]
example : survives sqGeod patFar lsFar = false := by
  norm_num [survives, sqGeod, patFar, lsFar, TripPattern.startPoint, LineString.firstPt]
example : survivesWithThreshold sqGeod 50 patFar lsFar = true := by
  norm_num [survivesWithThreshold, sqGeod, patFar, lsFar, TripPattern.startPoint,
    TripPattern.endPoint, TripPattern.coords, LineString.firstPt, LineString.lastPt]
example : matchPattern sqGeod [lsZero] patZero = some 0 := by
  norm_num [matchPattern, candidates, candidatesFrom, survives, sqGeod, patZero, lsZero,
    TripPattern.startPoint, TripPattern.endPoint, TripPattern.coords, LineString.firstPt,
    LineString.lastPt, pyMinAssoc]
example : pyMinAssoc [(0, 5), (1, 3), (2, 3)] = some 1 := by
  norm_num [pyMinAssoc, pickMin]

/-! ## Selection lemmas: Python `min` over the insertion-ordered dict -/

/-- The result of folding `pickMin` is an element of the scanned list. -/
theorem foldl_pickMin_mem : ∀ (cs : List (Nat × ℚ)) (c : Nat × ℚ),
    cs.foldl pickMin c ∈ c :: cs := by
  intro cs
  induction cs with
  | nil => intro c; simp
  | cons d cs ih =>
      intro c
      have h := ih (pickMin c d)
      simp only [List.foldl_cons]
      rcases List.mem_cons.mp h with h1 | h1
      · rw [h1]
        by_cases hd : d.2 < c.2
        · simp [pickMin, hd]
        · simp [pickMin, hd]
      · exact List.mem_cons.mpr (Or.inr (List.mem_cons.mpr (Or.inr h1)))

/-- Folding `pickMin` over a list whose first components strictly increase
yields a pair whose value is minimal, and which comes no later than any
other pair attaining that value (Python's `min` keeps the first minimum). -/
theorem foldl_pickMin_spec : ∀ (cs : List (Nat × ℚ)) (c : Nat × ℚ),
    (c :: cs).Pairwise (fun a b => a.1 < b.1) →
    (∀ x ∈ c :: cs, (cs.foldl pickMin c).2 ≤ x.2) ∧
    (∀ x ∈ c :: cs, x.2 = (cs.foldl pickMin c).2 → (cs.foldl pickMin c).1 ≤ x.1) := by
  intro cs
  induction cs with
  | nil =>
      intro c _
      constructor
      · intro x hx
        rcases List.mem_cons.mp hx with h | h
        · rw [h]; exact le_rfl
        · simp at h
      · intro x hx hv
        rcases List.mem_cons.mp hx with h | h
        · rw [h]; exact le_rfl
        · simp at h
  | cons d cs ih =>
      intro c hp
      have hcd : c.1 < d.1 := (List.pairwise_cons.mp hp).1 d (List.mem_cons_self d cs)
      simp only [List.foldl_cons]
      by_cases hd : d.2 < c.2
      · have hpick : pickMin c d = d := if_pos hd
        rw [hpick]
        have hp' : (d :: cs).Pairwise (fun a b => a.1 < b.1) :=
          (List.pairwise_cons.mp hp).2
        have hih := ih d hp'
        constructor
        · intro x hx
          rcases List.mem_cons.mp hx with h | h
          · rw [h]
            have h1 : (cs.foldl pickMin d).2 ≤ d.2 :=
              hih.1 d (List.mem_cons_self d cs)
            exact le_of_lt (lt_of_le_of_lt h1 hd)
          · exact hih.1 x h
        · intro x hx hv
          rcases List.mem_cons.mp hx with h | h
          · exfalso
            have h1 : (cs.foldl pickMin d).2 ≤ d.2 :=
              hih.1 d (List.mem_cons_self d cs)
            rw [h] at hv
            exact absurd hv (ne_of_gt (lt_of_le_of_lt h1 hd))
          · exact hih.2 x h hv
      · have hpick : pickMin c d = c := if_neg hd
        rw [hpick]
        have hcle : c.2 ≤ d.2 := le_of_not_lt hd
        have hp' : (c :: cs).Pairwise (fun a b => a.1 < b.1) := by
          rcases List.pairwise_cons.mp hp with ⟨h1, h2⟩
          rcases List.pairwise_cons.mp h2 with ⟨_, h4⟩
          exact List.pairwise_cons.mpr
            ⟨fun b hb => h1 b (List.mem_cons.mpr (Or.inr hb)), h4⟩
        have hih := ih c hp'
        have hrc : (cs.foldl pickMin c).2 ≤ c.2 :=
          hih.1 c (List.mem_cons_self c cs)
        constructor
        · intro x hx
          rcases List.mem_cons.mp hx with h | h
          · rw [h]; exact hih.1 c (List.mem_cons_self c cs)
          · rcases List.mem_cons.mp h with h2 | h2
            · rw [h2]; exact le_trans hrc hcle
            · exact hih.1 x (List.mem_cons.mpr (Or.inr h2))
        · intro x hx hv
          rcases List.mem_cons.mp hx with h | h
          · exact hih.2 x (h ▸ List.mem_cons_self c cs) hv
          · rcases List.mem_cons.mp h with h2 | h2
            · -- x = d attains the minimum: then c, too, attains it,
              -- and c precedes d in load order
              have hrc2 : c.2 = (cs.foldl pickMin c).2 := by
                apply le_antisymm
                · rw [← hv, h2]; exact hcle
                · exact hrc
              have h3 : (cs.foldl pickMin c).1 ≤ c.1 :=
                hih.2 c (List.mem_cons_self c cs) hrc2
              rw [h2]
              exact le_of_lt (lt_of_le_of_lt h3 hcd)
            · exact hih.2 x (List.mem_cons.mpr (Or.inr h2)) hv

/-! ## Candidate collection lemmas -/

/-- Membership in the candidate list is exactly survival of the indexed
linestring, with the recorded value its total geodesic length. -/
theorem mem_candidatesFrom (geod : Geod) (p : TripPattern) :
    ∀ (ls : List LineString) (i j : Nat) (v : ℚ),
    ((j, v) ∈ candidatesFrom geod p i ls ↔
      ∃ k L, ls[k]? = some L ∧ j = i + k ∧ survives geod p L = true ∧
        v = lineLength geod L) := by
  intro ls
  induction ls with
  | nil =>
      intro i j v
      simp [candidatesFrom]
  | cons L ls ih =>
      intro i j v
      simp only [candidatesFrom, List.mem_append]
      constructor
      · rintro (h | h)
        · by_cases hs : survives geod p L
          · rw [if_pos hs] at h
            simp only [List.mem_singleton, Prod.mk.injEq] at h
            exact ⟨0, L, by simp, by omega, hs, h.2⟩
          · rw [if_neg hs] at h
            simp at h
        · rcases (ih (i + 1) j v).mp h with ⟨k, L', hk, hj, hs, hv⟩
          exact ⟨k + 1, L', by simpa using hk, by omega, hs, hv⟩
      · rintro ⟨k, L', hk, hj, hs, hv⟩
        cases k with
        | zero =>
            left
            simp only [List.getElem?_cons_zero, Option.some.injEq] at hk
            rw [← hk] at hs hv
            rw [if_pos hs]
            simp only [List.mem_singleton, Prod.mk.injEq]
            exact ⟨by omega, hv⟩
        | succ k =>
            right
            refine (ih (i + 1) j v).mpr ⟨k, L', ?_, by omega, hs, hv⟩
            simpa using hk

/-- Every candidate index is at least the starting index. -/
theorem candidatesFrom_fst_ge (geod : Geod) (p : TripPattern)
    (ls : List LineString) (i j : Nat) (v : ℚ)
    (h : (j, v) ∈ candidatesFrom geod p i ls) : i ≤ j := by
  rcases (mem_candidatesFrom geod p ls i j v).mp h with ⟨k, L, _, hj, _, _⟩
  omega

/-- The candidate indices strictly increase in load order. -/
theorem candidatesFrom_pairwise (geod : Geod) (p : TripPattern) :
    ∀ (ls : List LineString) (i : Nat),
    (candidatesFrom geod p i ls).Pairwise (fun a b => a.1 < b.1) := by
  intro ls
  induction ls with
  | nil => intro i; simp [candidatesFrom]
  | cons L ls ih =>
      intro i
      simp only [candidatesFrom]
      by_cases hs : survives geod p L
      · rw [if_pos hs]
        refine (List.pairwise_append).mpr ⟨by simp, ih (i + 1), ?_⟩
        intro a ha b hb
        simp only [List.mem_singleton] at ha
        have : i + 1 ≤ b.1 := by
          rcases b with ⟨j, v⟩
          exact candidatesFrom_fst_ge geod p ls (i + 1) j v hb
        rw [ha]
        omega
      · rw [if_neg hs]
        simpa using ih (i + 1)

/-! ## C1 and C2 -/

/-- C1: for every trip pattern with at least one surviving candidate, the
matcher selects a candidate whose recorded total geodesic length is
minimal among all surviving candidates, and whose GeometryIndex load-order
index is lowest among the candidates attaining that minimal length. -/
theorem c1_selects_shortest_then_lowest_index (geod : Geod)
    (lss : List LineString) (p : TripPattern)
    (h : candidates geod p lss ≠ []) :
    ∃ i v, matchPattern geod lss p = some i ∧
      (i, v) ∈ candidates geod p lss ∧
      (∀ jw ∈ candidates geod p lss, v ≤ jw.2) ∧
      (∀ jw ∈ candidates geod p lss, jw.2 = v → i ≤ jw.1) := by
  rcases hc : candidates geod p lss with _ | ⟨c, cs⟩
  · exact absurd hc h
  · have hp : (c :: cs).Pairwise (fun a b => a.1 < b.1) := by
      have := candidatesFrom_pairwise geod p lss 0
      rw [show candidatesFrom geod p 0 lss = candidates geod p lss from rfl, hc] at this
      exact this
    have hmem := foldl_pickMin_mem cs c
    have hspec := foldl_pickMin_spec cs c hp
    refine ⟨(cs.foldl pickMin c).1, (cs.foldl pickMin c).2, ?_, ?_, ?_, ?_⟩
    · rw [matchPattern, hc]; rfl
    · exact hmem
    · intro jw hjw; exact hspec.1 jw hjw
    · intro jw hjw; exact fun hv => hspec.2 jw hjw hv

/-- Witness for C1: a concrete pattern and geometry index with one
surviving candidate; the matcher selects it. -/
theorem c1_witness :
    ∃ i v, matchPattern sqGeod [lsZero] patZero = some i ∧
      (i, v) ∈ candidates sqGeod patZero [lsZero] ∧
      (∀ jw ∈ candidates sqGeod patZero [lsZero], v ≤ jw.2) ∧
      (∀ jw ∈ candidates sqGeod patZero [lsZero], jw.2 = v → i ≤ jw.1) :=
  c1_selects_shortest_then_lowest_index sqGeod [lsZero] patZero
    (by norm_num [candidates, candidatesFrom, survives, sqGeod, patZero, lsZero,
      TripPattern.startPoint, TripPattern.endPoint, TripPattern.coords,
      LineString.firstPt, LineString.lastPt])

/-- A candidate whose first point is farther than 20 from the pattern's
first stop, or whose last point is farther than 20 from the pattern's
last stop, does not survive. -/
theorem survives_eq_false_of_far (geod : Geod) (p : TripPattern)
    (L : LineString)
    (hfar : 20 < geod.dist L.firstPt p.startPoint ∨
      20 < geod.dist L.lastPt p.endPoint) :
    survives geod p L = false := by
  unfold survives
  rcases hfar with hf | hf
  · rw [if_pos hf]
  · by_cases h1 : 20 < geod.dist L.firstPt p.startPoint
    · rw [if_pos h1]
    · rw [if_neg h1, if_pos hf]

/-- C2: a candidate linestring whose start point is farther than the
threshold from the pattern's first stop, or whose end point is farther
than the threshold from the pattern's last stop, is never the selected
match, whatever the other candidates are. -/
theorem c2_far_endpoint_never_selected (geod : Geod)
    (lss : List LineString) (p : TripPattern) (j : Nat) (L : LineString)
    (hL : lss[j]? = some L)
    (hfar : 20 < geod.dist L.firstPt p.startPoint ∨
      20 < geod.dist L.lastPt p.endPoint) :
    matchPattern geod lss p ≠ some j := by
  intro hsel
  have hj : ∃ v, (j, v) ∈ candidates geod p lss := by
    unfold matchPattern pyMinAssoc at hsel
    rcases hc : candidates geod p lss with _ | ⟨c, cs⟩
    · rw [hc] at hsel; simp at hsel
    · rw [hc] at hsel
      simp only [Option.some.injEq] at hsel
      refine ⟨(cs.foldl pickMin c).2, ?_⟩
      rw [← hsel]
      exact foldl_pickMin_mem cs c
  rcases hj with ⟨v, hv⟩
  rcases (mem_candidatesFrom geod p lss 0 j v).mp hv with ⟨k, L', hk, hjk, hs, _⟩
  have hkj : k = j := by omega
  rw [hkj, hL] at hk
  have hLL : L' = L := by injection hk with h; exact h.symm
  rw [hLL] at hs
  rw [survives_eq_false_of_far geod p L hfar] at hs
  exact Bool.false_ne_true hs

/-- Witness for C2: a concrete candidate whose start point is at squared
distance 25 > 20 from the pattern's first stop is not selected. -/
theorem c2_witness : matchPattern sqGeod [lsFar] patFar ≠ some 0 :=
  c2_far_endpoint_never_selected sqGeod [lsFar] patFar 0 lsFar rfl
    (Or.inl (by norm_num [sqGeod, patFar, lsFar, TripPattern.startPoint,
      LineString.firstPt]))

/-! ## ShapeBuilder (`GeojsonMatcher._create_shape`, matcher.py 204–238) -/

/-- One row of `shapes.txt` as assembled by `_create_shape`. -/
structure ShapeRecord where
  shape_id : String
  shape_pt_lat : ℚ
  shape_pt_lon : ℚ
  shape_pt_sequence : Nat
  shape_dist_traveled : ℚ
deriving DecidableEq, Repr

/-- The point-emitting loop of `_create_shape`: walks the coordinates of
the linestring, emitting for the point at 0-based position `i` a record
with sequence number `i + 1` and the accumulated distance `d` (km), then
advancing `d` by the geodesic length of the segment to the next point
divided by 1000.  The last point is emitted with sequence number
`len(shape_data) + 1`, which at that moment equals the point count. -/
def createShapeGo (geod : Geod) (sid : String) :
    List Point → Nat → ℚ → List ShapeRecord
  | [], _, _ => []
  | [p], i, d => [⟨sid, p.lat, p.lon, i + 1, d⟩]
  | p :: q :: rs, i, d =>
      ⟨sid, p.lat, p.lon, i + 1, d⟩ ::
        createShapeGo geod sid (q :: rs) (i + 1) (d + geod.dist p q / 1000)

/-- `_create_shape`: mints the shape id from the current shape count and
renders the rows; returns the id and the rows. -/
def createShape (geod : Geod) (numShapes : Nat) (L : LineString) :
    String × List ShapeRecord :=
  let sid := "de:vpe:shape:" ++ toString numShapes
  (sid, createShapeGo geod sid L.coords 0 0)

/-- The emitted rows carry exactly the walked coordinates, in order. -/
theorem createShapeGo_points (geod : Geod) (sid : String) :
    ∀ (cs : List Point) (i : Nat) (d : ℚ),
    (createShapeGo geod sid cs i d).map
      (fun r => Point.mk r.shape_pt_lon r.shape_pt_lat) = cs := by
  intro cs
  induction cs with
  | nil => intro i d; rfl
  | cons p cs ih =>
      intro i d
      cases cs with
      | nil => rfl
      | cons q rs =>
          simp only [createShapeGo, List.map_cons]
          rw [ih (i + 1) (d + geod.dist p q / 1000)]

/-- The emitted sequence numbers are `i+1, i+2, …, i+|cs|`. -/
theorem createShapeGo_seq (geod : Geod) (sid : String) :
    ∀ (cs : List Point) (i : Nat) (d : ℚ),
    (createShapeGo geod sid cs i d).map (fun r => r.shape_pt_sequence) =
      List.range' (i + 1) cs.length := by
  intro cs
  induction cs with
  | nil => intro i d; rfl
  | cons p cs ih =>
      intro i d
      cases cs with
      | nil => rfl
      | cons q rs =>
          simp only [createShapeGo, List.map_cons, List.length_cons]
          rw [ih (i + 1) (d + geod.dist p q / 1000)]
          rw [List.range'_succ]
          rfl

/-- The first emitted row carries the incoming accumulated distance. -/
theorem createShapeGo_head_dist (geod : Geod) (sid : String)
    (cs : List Point) (i : Nat) (d : ℚ) (h : cs ≠ []) :
    (createShapeGo geod sid cs i d).head?.map
      (fun r => r.shape_dist_traveled) = some d := by
  cases cs with
  | nil => exact absurd rfl h
  | cons p cs =>
      cases cs with
      | nil => rfl
      | cons q rs => rfl

/-- With a nonnegative distance primitive the accumulated distances are
non-decreasing along the emitted rows. -/
theorem createShapeGo_dist_mono (geod : Geod) (sid : String)
    (hpos : ∀ p q : Point, 0 ≤ geod.dist p q) :
    ∀ (cs : List Point) (i : Nat) (d : ℚ),
    List.Chain' (· ≤ ·)
      ((createShapeGo geod sid cs i d).map (fun r => r.shape_dist_traveled)) := by
  intro cs
  induction cs with
  | nil => intro i d; simp [createShapeGo]
  | cons p cs ih =>
      intro i d
      cases cs with
      | nil => simp [createShapeGo]
      | cons q rs =>
          simp only [createShapeGo, List.map_cons]
          rw [List.chain'_cons']
          constructor
          · intro b hb
            rw [List.head?_map] at hb
            rw [createShapeGo_head_dist geod sid (q :: rs) (i + 1)
              (d + geod.dist p q / 1000) (by simp)] at hb
            have hb' : b = d + geod.dist p q / 1000 := by
              have h2 : d + geod.dist p q / 1000 = b := by simpa using hb
              exact h2.symm
            have hseg : (0:ℚ) ≤ geod.dist p q / 1000 :=
              div_nonneg (hpos p q) (by norm_num)
            rw [hb']
            linarith
          · exact ih (i + 1) (d + geod.dist p q / 1000)

/-- C3: the shape built from a winning linestring has exactly the
linestring's points, in order, with the same coordinates; its sequence
numbers are the contiguous range 1..N; its cumulative distance starts at
0.0 and (for a nonnegative distance primitive, which geodesic distance
is) is non-decreasing along the sequence. -/
theorem c3_shape_fidelity (geod : Geod) (n : Nat) (L : LineString)
    (hpos : ∀ p q : Point, 0 ≤ geod.dist p q) :
    ((createShape geod n L).2).map
        (fun r => Point.mk r.shape_pt_lon r.shape_pt_lat) = L.coords ∧
    ((createShape geod n L).2).length = L.coords.length ∧
    ((createShape geod n L).2).map (fun r => r.shape_pt_sequence) =
      List.range' 1 L.coords.length ∧
    ((createShape geod n L).2).head?.map (fun r => r.shape_dist_traveled) =
      some 0 ∧
    List.Chain' (· ≤ ·)
      (((createShape geod n L).2).map (fun r => r.shape_dist_traveled)) := by
  simp only [createShape]
  refine ⟨?_, ?_, ?_, ?_, ?_⟩
  · exact createShapeGo_points geod _ L.coords 0 0
  · have h := congrArg List.length
      (createShapeGo_points geod ("de:vpe:shape:" ++ toString n) L.coords 0 0)
    simpa using h
  · have h := createShapeGo_seq geod ("de:vpe:shape:" ++ toString n) L.coords 0 0
    simpa using h
  · exact createShapeGo_head_dist geod _ L.coords 0 0 (by simp [LineString.coords])
  · exact createShapeGo_dist_mono geod _ hpos L.coords 0 0

/-- Witness for C3: the shape built from a concrete linestring under the
squared-Euclidean distance primitive, which is nonnegative. -/
theorem c3_witness :
    ((createShape sqGeod 0 lsZero).2).map
        (fun r => Point.mk r.shape_pt_lon r.shape_pt_lat) = lsZero.coords ∧
    ((createShape sqGeod 0 lsZero).2).length = lsZero.coords.length ∧
    ((createShape sqGeod 0 lsZero).2).map (fun r => r.shape_pt_sequence) =
      List.range' 1 lsZero.coords.length ∧
    ((createShape sqGeod 0 lsZero).2).head?.map
      (fun r => r.shape_dist_traveled) = some 0 ∧
    List.Chain' (· ≤ ·)
      (((createShape sqGeod 0 lsZero).2).map (fun r => r.shape_dist_traveled)) :=
  c3_shape_fidelity sqGeod 0 lsZero
    (fun _ _ => add_nonneg (sq_nonneg _) (sq_nonneg _))

/-! ## C4: the acceptance threshold -/

/-- C4 counterexample: the code's acceptance predicate is not driven by a
configured threshold.  With a configured threshold of 50 m the spec's
predicate accepts the candidate `lsFar` for `patFar` (its endpoint
deviation is 25), but the code rejects it, because the matching code
compares against the hard-coded literal 20 in all three checks. -/
theorem c4_counterexample :
    survivesWithThreshold sqGeod 50 patFar lsFar = true ∧
    survives sqGeod patFar lsFar = false := by
  constructor
  · norm_num [survivesWithThreshold, sqGeod, patFar, lsFar, TripPattern.startPoint,
      TripPattern.endPoint, TripPattern.coords, LineString.firstPt, LineString.lastPt]
  · norm_num [survives, sqGeod, patFar, lsFar, TripPattern.startPoint,
      LineString.firstPt]

/-- C4 (amended): the two endpoint checks and the interior stop-proximity
check all compare against one and the same value, namely the hard-coded
constant 20 meters — the code's predicate coincides with the spec's
parametric predicate instantiated at threshold 20, for every geometry
interpretation, pattern and candidate. -/
theorem c4_single_hardcoded_threshold (geod : Geod) (p : TripPattern)
    (L : LineString) :
    survives geod p L = survivesWithThreshold geod 20 p L := rfl

/-! ## TripPatternIndex (`GeojsonMatcher._read_gtfs_index`, matcher.py 113–153) -/

/-- The Python dict-of-lists idiom
`if k not in d: d[k] = []` followed by `d[k].append(v)`, on an
insertion-ordered association list. -/
def dictAppend {α : Type} (acc : List (String × List α)) (k : String)
    (v : α) : List (String × List α) :=
  if k ∈ acc.map Prod.fst then
    acc.map (fun e => if e.1 = k then (e.1, e.2 ++ [v]) else e)
  else acc ++ [(k, [v])]

/-- Grouping a row list into the dict-of-lists, in row order: the common
shape of `trip_stop_id_lists` (matcher.py 126–135) and
`_gtfs_trip_patterns_trip_ids` (matcher.py 146–149). -/
def groupFold {α : Type} (rows : List (String × α)) :
    List (String × List α) :=
  rows.foldl (fun acc r => dictAppend acc r.1 r.2) []

/-- Filtering a singleton that matches the key keeps it. -/
theorem filterSingletonPos {α : Type} (r : String × α) (k : String)
    (h : r.1 = k) : [r].filter (fun x => x.1 = k) = [r] := by
  simp [h]

/-- Filtering a singleton that misses the key drops it. -/
theorem filterSingletonNeg {α : Type} (r : String × α) (k : String)
    (h : ¬r.1 = k) : [r].filter (fun x => x.1 = k) = [] := by
  simp [h]

/-- Characterization of the grouping fold: keys are distinct, and an
entry `(k, vs)` is present exactly when `k` occurs among the rows and
`vs` collects, in row order, the values of the rows keyed `k`. -/
theorem groupFold_spec {α : Type} (rows : List (String × α)) :
    ((groupFold rows).map Prod.fst).Nodup ∧
    ∀ k vs, ((k, vs) ∈ groupFold rows ↔
      (k ∈ rows.map Prod.fst ∧
        vs = (rows.filter (fun r => r.1 = k)).map Prod.snd)) := by
  induction rows using List.reverseRecOn with
  | nil =>
      constructor
      · simp [groupFold]
      · intro k vs
        simp [groupFold]
  | append_singleton rows r ih =>
      rcases ih with ⟨hnd, hmem⟩
      have hstep : groupFold (rows ++ [r]) = dictAppend (groupFold rows) r.1 r.2 := by
        simp [groupFold, List.foldl_append]
      have hkeys : ∀ k, k ∈ (groupFold rows).map Prod.fst ↔ k ∈ rows.map Prod.fst := by
        intro k
        constructor
        · intro h
          rcases List.mem_map.mp h with ⟨e, he, hk⟩
          have he2 : (e.1, e.2) ∈ groupFold rows := by simpa using he
          exact hk ▸ ((hmem e.1 e.2).mp he2).1
        · intro h
          have h2 := (hmem k ((rows.filter (fun x => x.1 = k)).map Prod.snd)).mpr ⟨h, rfl⟩
          exact List.mem_map.mpr ⟨_, h2, rfl⟩
      rw [hstep]
      unfold dictAppend
      by_cases hin : r.1 ∈ (groupFold rows).map Prod.fst
      · rw [if_pos hin]
        constructor
        · -- keys unchanged by the in-place update
          have hsame : ((groupFold rows).map
              (fun e => if e.1 = r.1 then (e.1, e.2 ++ [r.2]) else e)).map Prod.fst =
              (groupFold rows).map Prod.fst := by
            rw [List.map_map]
            apply List.map_congr_left
            intro e _
            by_cases he : e.1 = r.1
            · simp [he]
            · simp [he]
          rw [hsame]
          exact hnd
        · intro k vs
          constructor
          · intro h
            rcases List.mem_map.mp h with ⟨e, he, hke⟩
            by_cases hek : e.1 = r.1
            · rw [if_pos hek] at hke
              have hk : k = e.1 := (congrArg Prod.fst hke).symm
              have hv : vs = e.2 ++ [r.2] := (congrArg Prod.snd hke).symm
              rcases (hmem e.1 e.2).mp (by simpa using he) with ⟨hkey, hval⟩
              refine ⟨?_, ?_⟩
              · rw [hk, List.map_append, List.mem_append]
                exact Or.inl hkey
              · rw [hv, hval, hk, List.filter_append, List.map_append,
                  filterSingletonPos r e.1 hek.symm]
                simp
            · rw [if_neg hek] at hke
              have he2 : (k, vs) ∈ groupFold rows := hke ▸ he
              rcases (hmem k vs).mp he2 with ⟨hkey, hval⟩
              have hkr : ¬r.1 = k :=
                fun h2 => hek ((congrArg Prod.fst hke).trans h2.symm)
              refine ⟨?_, ?_⟩
              · rw [List.map_append, List.mem_append]
                exact Or.inl hkey
              · rw [hval, List.filter_append, List.map_append,
                  filterSingletonNeg r k hkr]
                simp
          · rintro ⟨hkey, hval⟩
            by_cases hkr : k = r.1
            · refine List.mem_map.mpr
                ⟨(r.1, (rows.filter (fun x => x.1 = r.1)).map Prod.snd),
                  (hmem r.1 _).mpr ⟨(hkeys r.1).mp hin, rfl⟩, ?_⟩
              rw [if_pos rfl]
              have hvs : vs =
                  (rows.filter (fun x => x.1 = r.1)).map Prod.snd ++ [r.2] := by
                rw [hval, hkr, List.filter_append, List.map_append,
                  filterSingletonPos r r.1 rfl]
                simp
              rw [hvs, hkr]
            · have hkey' : k ∈ rows.map Prod.fst := by
                rw [List.map_append, List.mem_append] at hkey
                rcases hkey with h | h
                · exact h
                · exfalso
                  simp only [List.map_cons, List.map_nil, List.mem_singleton] at h
                  exact hkr h
              have hvs : vs = (rows.filter (fun x => x.1 = k)).map Prod.snd := by
                rw [hval, List.filter_append, List.map_append,
                  filterSingletonNeg r k (fun h2 => hkr h2.symm)]
                simp
              refine List.mem_map.mpr ⟨(k, vs), (hmem k vs).mpr ⟨hkey', hvs⟩, ?_⟩
              rw [if_neg hkr]
      · rw [if_neg hin]
        have hnotrows : r.1 ∉ rows.map Prod.fst :=
          fun hmr => hin ((hkeys r.1).mpr hmr)
        constructor
        · rw [List.map_append, List.nodup_append]
          refine ⟨hnd, by simp, ?_⟩
          intro a ha hb
          simp only [List.map_cons, List.map_nil, List.mem_singleton] at hb
          exact hin (hb ▸ ha)
        · intro k vs
          constructor
          · intro h
            rcases List.mem_append.mp h with h | h
            · rcases (hmem k vs).mp h with ⟨hkey, hval⟩
              have hkr : ¬r.1 = k := fun h2 => hnotrows (h2 ▸ hkey)
              refine ⟨?_, ?_⟩
              · rw [List.map_append, List.mem_append]
                exact Or.inl hkey
              · rw [hval, List.filter_append, List.map_append,
                  filterSingletonNeg r k hkr]
                simp
            · simp only [List.mem_singleton, Prod.mk.injEq] at h
              rcases h with ⟨hk, hv⟩
              have hfil : rows.filter (fun x => x.1 = k) = [] := by
                apply List.filter_eq_nil_iff.mpr
                intro a ha
                simp only [decide_eq_true_eq]
                intro hak
                exact hnotrows (hk ▸ (List.mem_map.mpr ⟨a, ha, hak⟩))
              refine ⟨?_, ?_⟩
              · rw [List.map_append, List.mem_append]
                right
                simp [hk]
              · rw [List.filter_append, hfil, List.map_append,
                  filterSingletonPos r k hk.symm]
                simpa using hv
          · rintro ⟨hkey, hval⟩
            by_cases hkr : k = r.1
            · refine List.mem_append.mpr (Or.inr ?_)
              have hfil : rows.filter (fun x => x.1 = k) = [] := by
                apply List.filter_eq_nil_iff.mpr
                intro a ha
                simp only [decide_eq_true_eq]
                intro hak
                exact hnotrows (hkr ▸ (List.mem_map.mpr ⟨a, ha, hak⟩))
              have hvs : vs = [r.2] := by
                rw [hval, List.filter_append, hfil, List.map_append,
                  filterSingletonPos r k hkr.symm]
                simp
              simp [hkr, hvs]
            · refine List.mem_append.mpr (Or.inl ?_)
              have hkey' : k ∈ rows.map Prod.fst := by
                rw [List.map_append, List.mem_append] at hkey
                rcases hkey with h | h
                · exact h
                · exfalso
                  simp only [List.map_cons, List.map_nil, List.mem_singleton] at h
                  exact hkr h
              have hvs : vs = (rows.filter (fun x => x.1 = k)).map Prod.snd := by
                rw [hval, List.filter_append, List.map_append,
                  filterSingletonNeg r k (fun h2 => hkr h2.symm)]
                simp
              exact (hmem k vs).mpr ⟨hkey', hvs⟩

/-! ## Pattern ids: `'#'.join(stop_ids)` (matcher.py line 139) -/

/-- `trip_pattern_id = '#'.join(stop_ids)`. -/
def patternId : List String → String
  | [] => ""
  | [x] => x
  | x :: y :: xs => x ++ "#" ++ patternId (y :: xs)

/-- Character-level counterpart of `patternId`. -/
def joinChars : List (List Char) → List Char
  | [] => []
  | [x] => x
  | x :: y :: xs => x ++ '#' :: joinChars (y :: xs)

/-- `patternId` is `joinChars` on the underlying character lists. -/
theorem patternId_data : ∀ ids : List String,
    (patternId ids).data = joinChars (ids.map String.data)
  | [] => rfl
  | [_] => rfl
  | x :: y :: xs => by
      simp only [patternId, joinChars, List.map_cons]
      rw [String.data_append, String.data_append]
      have hrec := patternId_data (y :: xs)
      simp only [List.map_cons] at hrec
      rw [hrec]
      simp

/-- Splitting at the first separator is unambiguous when neither prefix
contains the separator. -/
theorem sep_split_inj : ∀ (x y u v : List Char), '#' ∉ x → '#' ∉ y →
    x ++ '#' :: u = y ++ '#' :: v → x = y ∧ u = v := by
  intro x
  induction x with
  | nil =>
      intro y u v _ hy h
      cases y with
      | nil => simpa using h
      | cons b y' =>
          exfalso
          simp only [List.nil_append, List.cons_append, List.cons.injEq] at h
          exact hy (h.1 ▸ List.mem_cons_self b y')
  | cons a x' ih =>
      intro y u v hx hy h
      cases y with
      | nil =>
          exfalso
          simp only [List.cons_append, List.nil_append, List.cons.injEq] at h
          exact hx (h.1 ▸ List.mem_cons_self a x')
      | cons b y' =>
          simp only [List.cons_append, List.cons.injEq] at h
          rcases h with ⟨hab, htail⟩
          have hx' : '#' ∉ x' := fun hm => hx (List.mem_cons.mpr (Or.inr hm))
          have hy' : '#' ∉ y' := fun hm => hy (List.mem_cons.mpr (Or.inr hm))
          rcases ih y' u v hx' hy' htail with ⟨h1, h2⟩
          exact ⟨by rw [hab, h1], h2⟩

/-- On nonempty lists of separator-free segments, `joinChars` is
injective. -/
theorem joinChars_inj : ∀ xs ys : List (List Char), xs ≠ [] → ys ≠ [] →
    (∀ x ∈ xs, '#' ∉ x) → (∀ y ∈ ys, '#' ∉ y) →
    joinChars xs = joinChars ys → xs = ys := by
  intro xs
  induction xs with
  | nil => intro ys hxs _ _ _ _; exact absurd rfl hxs
  | cons x xs' ih =>
      intro ys _ hys hx hy h
      cases ys with
      | nil => exact absurd rfl hys
      | cons y ys' =>
          cases xs' with
          | nil =>
              cases ys' with
              | nil =>
                  simp only [joinChars] at h
                  rw [h]
              | cons y' ys'' =>
                  exfalso
                  simp only [joinChars] at h
                  have hsep : '#' ∈ y ++ '#' :: joinChars (y' :: ys'') :=
                    List.mem_append.mpr (Or.inr (List.mem_cons_self _ _))
                  rw [← h] at hsep
                  exact hx x (List.mem_cons_self _ _) hsep
          | cons x' xs'' =>
              cases ys' with
              | nil =>
                  exfalso
                  simp only [joinChars] at h
                  have hsep : '#' ∈ x ++ '#' :: joinChars (x' :: xs'') :=
                    List.mem_append.mpr (Or.inr (List.mem_cons_self _ _))
                  rw [h] at hsep
                  exact hy y (List.mem_cons_self _ _) hsep
              | cons y' ys'' =>
                  simp only [joinChars] at h
                  rcases sep_split_inj x y _ _
                    (hx x (List.mem_cons_self _ _))
                    (hy y (List.mem_cons_self _ _)) h with ⟨hxy, hJ⟩
                  have hrest := ih (y' :: ys'') (by simp) (by simp)
                    (fun a ha => hx a (List.mem_cons.mpr (Or.inr ha)))
                    (fun a ha => hy a (List.mem_cons.mpr (Or.inr ha))) hJ
                  rw [hxy, hrest]

/-- In an association list with distinct keys, a key determines its
value. -/
theorem assoc_nodup_unique {β : Type} : ∀ (l : List (String × β))
    (k : String) (b c : β), (l.map Prod.fst).Nodup →
    (k, b) ∈ l → (k, c) ∈ l → b = c := by
  intro l
  induction l with
  | nil => intro k b c _ hb _; simp at hb
  | cons e l ih =>
      intro k b c hnd hb hc
      simp only [List.map_cons, List.nodup_cons] at hnd
      have hkey : ∀ d : β, (k, d) ∈ l → k ∈ l.map Prod.fst :=
        fun d hd => List.mem_map.mpr ⟨(k, d), hd, rfl⟩
      rcases List.mem_cons.mp hb with h1 | h1
      · rcases List.mem_cons.mp hc with h2 | h2
        · have h3 := h1.trans h2.symm
          exact congrArg Prod.snd h3
        · exfalso
          have : e.1 = k := by rw [← h1]
          exact hnd.1 (this ▸ hkey c h2)
      · rcases List.mem_cons.mp hc with h2 | h2
        · exfalso
          have : e.1 = k := by rw [← h2]
          exact hnd.1 (this ▸ hkey b h1)
        · exact ih k b c hnd.2 h1 h2

/-- `_gtfs_trip_patterns_trip_ids` (matcher.py lines 138–149): starting
from the trip → stop-ids index, each trip is appended to the entry keyed
by the `'#'`-join of its stop ids. -/
def tripPatternsTripIds (tsl : List (String × List String)) :
    List (String × List String) :=
  groupFold (tsl.map (fun e => (patternId e.2, e.1)))

/-- Two trips belong to the same TripPattern: some entry of the grouped
index carries both trip ids. -/
def sameTripPattern (tsl : List (String × List String))
    (t1 t2 : String) : Prop :=
  ∃ e ∈ tripPatternsTripIds tsl, t1 ∈ e.2 ∧ t2 ∈ e.2

/-- A feed whose two trips have different stop sequences that share the
same joined signature `"a#b"`. -/
def tslPound : List (String × List String) :=
  [("t1", ["a#b"]), ("t2", ["a", "b"])]

/-- C5 counterexample: in `tslPound` the trips `t1` (stops `["a#b"]`) and
`t2` (stops `["a", "b"]`) are grouped into the same TripPattern although
their ordered stop-ID sequences differ — the `'#'`-join identifies them
both as `"a#b"`.  This falsifies "same TripPattern iff stop-ID sequences
are exactly equal". -/
theorem c5_counterexample :
    ("t1", ["a#b"]) ∈ tslPound ∧
    ("t2", ["a", "b"]) ∈ tslPound ∧
    (tslPound.map Prod.fst).Nodup ∧
    sameTripPattern tslPound "t1" "t2" ∧
    (["a#b"] : List String) ≠ ["a", "b"] := by
  refine ⟨by decide, by decide, by decide, ?_, by decide⟩
  exact ⟨("a#b", ["t1", "t2"]), by decide, by decide, by decide⟩

/-- C5 (amended): over a feed with distinct trip ids, two trips are
grouped into the same TripPattern iff the `'#'`-joins of their stop-ID
sequences are equal; when every stop id is nonempty-listed and free of
the separator `'#'`, this coincides with exact, order-sensitive equality
of the stop-ID sequences. -/
theorem c5_grouped_iff_joined_ids_equal (tsl : List (String × List String))
    (hnd : (tsl.map Prod.fst).Nodup) (t1 : String) (s1 : List String)
    (t2 : String) (s2 : List String)
    (h1 : (t1, s1) ∈ tsl) (h2 : (t2, s2) ∈ tsl) :
    (sameTripPattern tsl t1 t2 ↔ patternId s1 = patternId s2) ∧
    (s1 ≠ [] → s2 ≠ [] → (∀ x ∈ s1, '#' ∉ x.data) →
      (∀ x ∈ s2, '#' ∉ x.data) →
      (patternId s1 = patternId s2 ↔ s1 = s2)) := by
  obtain ⟨hndG, hspec⟩ :=
    groupFold_spec (tsl.map (fun e => (patternId e.2, e.1)))
  constructor
  · constructor
    · rintro ⟨e, he, ht1, ht2⟩
      have he' : (e.1, e.2) ∈ tripPatternsTripIds tsl := by simpa using he
      rcases (hspec e.1 e.2).mp he' with ⟨_, hval⟩
      have hpid : ∀ (t : String) (s : List String), (t, s) ∈ tsl → t ∈ e.2 →
          patternId s = e.1 := by
        intro t s hts ht
        rw [hval] at ht
        rcases List.mem_map.mp ht with ⟨row, hrow, hrt⟩
        rcases List.mem_filter.mp hrow with ⟨hrmem, hrkey⟩
        rcases List.mem_map.mp hrmem with ⟨a, ha, hfa⟩
        have ha1 : a.1 = t := by
          have := congrArg Prod.snd hfa
          simpa using this.trans hrt
        have ha2 : patternId a.2 = row.1 := by
          have := congrArg Prod.fst hfa
          simpa using this
        have hats : (t, a.2) ∈ tsl := by
          rw [← ha1]
          exact ha
        have hsa : a.2 = s := assoc_nodup_unique tsl t a.2 s hnd hats hts
        have hrowkey : row.1 = e.1 := by simpa using hrkey
        rw [← hsa, ha2, hrowkey]
      have hp1 := hpid t1 s1 h1 ht1
      have hp2 := hpid t2 s2 h2 ht2
      rw [hp1, hp2]
    · intro hpp
      refine ⟨(patternId s1,
        ((tsl.map (fun e => (patternId e.2, e.1))).filter
          (fun r => r.1 = patternId s1)).map Prod.snd), ?_, ?_, ?_⟩
      · apply (hspec _ _).mpr
        refine ⟨?_, rfl⟩
        exact List.mem_map.mpr
          ⟨(patternId s1, t1), List.mem_map.mpr ⟨(t1, s1), h1, rfl⟩, rfl⟩
      · exact List.mem_map.mpr ⟨(patternId s1, t1),
          List.mem_filter.mpr ⟨List.mem_map.mpr ⟨(t1, s1), h1, rfl⟩, by simp⟩, rfl⟩
      · exact List.mem_map.mpr ⟨(patternId s2, t2),
          List.mem_filter.mpr ⟨List.mem_map.mpr ⟨(t2, s2), h2, rfl⟩,
            by simp [hpp]⟩, rfl⟩
  · intro hne1 hne2 hf1 hf2
    constructor
    · intro hpp
      have hdata : joinChars (s1.map String.data) =
          joinChars (s2.map String.data) := by
        rw [← patternId_data, ← patternId_data, hpp]
      have hmaps := joinChars_inj (s1.map String.data) (s2.map String.data)
        (by simpa using hne1) (by simpa using hne2)
        (by intro x hx
            rcases List.mem_map.mp hx with ⟨a, ha, hax⟩
            exact hax ▸ hf1 a ha)
        (by intro x hx
            rcases List.mem_map.mp hx with ⟨a, ha, hax⟩
            exact hax ▸ hf2 a ha)
        hdata
      exact List.map_injective_iff.mpr (fun a b hab => String.ext hab) hmaps
    · intro hss
      rw [hss]

/-- A feed with two trips sharing the same stop sequence. -/
def tslSame : List (String × List String) :=
  [("t1", ["a", "b"]), ("t2", ["a", "b"])]

/-- Witness for the amended C5 theorem at a concrete feed. -/
theorem c5_witness :
    (sameTripPattern tslSame "t1" "t2" ↔
      patternId ["a", "b"] = patternId ["a", "b"]) ∧
    ((["a", "b"] : List String) ≠ [] → (["a", "b"] : List String) ≠ [] →
      (∀ x ∈ (["a", "b"] : List String), '#' ∉ x.data) →
      (∀ x ∈ (["a", "b"] : List String), '#' ∉ x.data) →
      (patternId ["a", "b"] = patternId ["a", "b"] ↔
        (["a", "b"] : List String) = ["a", "b"])) :=
  c5_grouped_iff_joined_ids_equal tslSame (by decide) "t1" ["a", "b"]
    "t2" ["a", "b"] (by decide) (by decide)

/-! ## Trip stop sequences (`_read_gtfs_index`, matcher.py 125–135) -/

/-- One row of `stop_times.txt`.  The feed carries an intrinsic stop
sequence column; the code reads only `trip_id` and `stop_id` and never
consults the sequence column. -/
structure StopTimeRow where
  trip_id : String
  stop_id : String
  stop_seq : Nat
deriving DecidableEq, Repr

/-- `trip_stop_id_lists` (matcher.py lines 126–135): for each trip, its
stop ids are accumulated in the physical order of the rows of
`stop_times.txt`. -/
def tripStopIdLists (rows : List StopTimeRow) : List (String × List String) :=
  groupFold (rows.map (fun r => (r.trip_id, r.stop_id)))

/-- Modelled from the spec (§4.2): insertion into a row list sorted by
the feed's intrinsic stop sequence column. -/
def insertBySeq (r : StopTimeRow) : List StopTimeRow → List StopTimeRow
  | [] => [r]
  | x :: xs =>
      if r.stop_seq ≤ x.stop_seq then r :: x :: xs else x :: insertBySeq r xs

/-- Modelled from the spec (§4.2): sorting stop_times rows by the feed's
intrinsic stop sequence column. -/
def sortBySeq : List StopTimeRow → List StopTimeRow
  | [] => []
  | x :: xs => insertBySeq x (sortBySeq xs)

/-- Modelled from the spec (§4.2, "produce its ordered stop-ID sequence
from stop_times sorted by the feed's intrinsic stop sequence"): the
stop-ID sequence of a trip per the spec's contract. -/
def tripStopIdsSpec (rows : List StopTimeRow) (t : String) : List String :=
  (sortBySeq (rows.filter (fun r => r.trip_id = t))).map (fun r => r.stop_id)

/-- A two-row feed for one trip whose rows appear in reverse of the
intrinsic stop sequence. -/
def rowsSwapped : List StopTimeRow :=
  [⟨"t", "A", 2⟩, ⟨"t", "B", 1⟩]

/-- C6 counterexample: with the rows of `stop_times.txt` physically out
of stop-sequence order, the code derives the stop-ID sequence
`["A", "B"]` (file order), while sorting by the intrinsic sequence column
gives `["B", "A"]` — the derived pattern is not independent of the
physical row order. -/
theorem c6_counterexample :
    ("t", ["A", "B"]) ∈ tripStopIdLists rowsSwapped ∧
    (["A", "B"] : List String) ≠ tripStopIdsSpec rowsSwapped "t" := by
  constructor
  · decide
  · decide

/-- C6 (amended): the ordered stop-ID sequence used for a trip is the
projection of the trip's stop_times rows in physical file order (the
intrinsic sequence column is never consulted), and each trip has exactly
one entry. -/
theorem c6_stop_ids_in_file_order (rows : List StopTimeRow) (t : String)
    (h : t ∈ rows.map (fun r => r.trip_id)) :
    (t, (rows.filter (fun r => r.trip_id = t)).map (fun r => r.stop_id)) ∈
      tripStopIdLists rows ∧
    ((tripStopIdLists rows).map Prod.fst).Nodup := by
  obtain ⟨hnd, hspec⟩ :=
    groupFold_spec (rows.map (fun r => (r.trip_id, r.stop_id)))
  refine ⟨?_, hnd⟩
  apply (hspec t _).mpr
  constructor
  · rw [List.map_map]
    exact h
  · rw [List.filter_map, List.map_map]
    rfl

/-- Witness for the amended C6 theorem at the concrete swapped feed. -/
theorem c6_witness :
    ("t", (rowsSwapped.filter (fun r => r.trip_id = "t")).map
      (fun r => r.stop_id)) ∈ tripStopIdLists rowsSwapped ∧
    ((tripStopIdLists rowsSwapped).map Prod.fst).Nodup :=
  c6_stop_ids_in_file_order rowsSwapped "t" (by decide)

/-! ## The matching loop (`GeojsonMatcher.run`, matcher.py 55–99) and the
`trips.txt` rewriting (`_write_gtfs_data`, matcher.py 167–190) -/

/-- The mutable state the loop threads: `self._gtfs_shapes` (insertion
ordered), `self._gtfs_trips_shape_ids` (assignment log; Python dict
lookup takes the last assignment), and the warning log. -/
structure MatchState where
  shapes : List (String × List ShapeRecord)
  tripShapeIds : List (String × String)
  warnings : List String
deriving DecidableEq, Repr

/-- Stand-in for `self._geojson_linestrings[i]`; the selected index is
always in range, so the default is never consulted. -/
def dfltLineString : LineString := ⟨⟨0, 0⟩, ⟨0, 0⟩, []⟩

/-- One iteration of the pattern loop (matcher.py lines 55–96): find the
best candidate; if one exists, render the shape (its id minted from the
current shape count) and assign it to every trip of the pattern;
otherwise log a warning and move on. -/
def processPattern (geod : Geod) (lss : List LineString) (st : MatchState)
    (p : TripPattern) : MatchState :=
  match matchPattern geod lss p with
  | some i =>
      let rendered := createShape geod st.shapes.length (lss.getD i dfltLineString)
      { st with
          shapes := st.shapes ++ [rendered],
          tripShapeIds := st.tripShapeIds ++
            p.trips.map (fun t => (t, rendered.1)) }
  | none => { st with warnings := st.warnings ++ [p.pid] }

/-- The pattern loop from an arbitrary starting state. -/
def runMatchFrom (geod : Geod) (lss : List LineString) (st : MatchState)
    (ps : List TripPattern) : MatchState :=
  ps.foldl (processPattern geod lss) st

/-- The whole pattern loop of `run` (matcher.py lines 55–97). -/
def runMatch (geod : Geod) (lss : List LineString)
    (ps : List TripPattern) : MatchState :=
  runMatchFrom geod lss ⟨[], [], []⟩ ps

/-- Python dict lookup over the assignment log: the last assignment to a
key wins; `none` when the key was never assigned. -/
def dictLookup (l : List (String × String)) (k : String) : Option String :=
  (l.reverse.find? (fun e => e.1 = k)).map (fun e => e.2)

/-- One row of `trips.txt` (only the columns the rewriting touches). -/
structure TripRow where
  trip_id : String
  shape_id : String
deriving DecidableEq, Repr

/-- Rewriting one row of `trips.txt` (matcher.py lines 184–190): a
matched trip gets its shape id, an unmatched trip the empty string. -/
def writeTripRow (st : MatchState) (row : TripRow) : TripRow :=
  match dictLookup st.tripShapeIds row.trip_id with
  | some s => { row with shape_id := s }
  | none => { row with shape_id := "" }

/-- A pattern with no surviving candidate only appends its warning. -/
theorem processPattern_unmatched (geod : Geod) (lss : List LineString)
    (st : MatchState) (p : TripPattern)
    (h : candidates geod p lss = []) :
    processPattern geod lss st p =
      { st with warnings := st.warnings ++ [p.pid] } := by
  unfold processPattern matchPattern
  rw [h]
  rfl

/-- Warnings survive one loop iteration. -/
theorem processPattern_warnings_mono (geod : Geod) (lss : List LineString)
    (st : MatchState) (p : TripPattern) (w : String)
    (h : w ∈ st.warnings) :
    w ∈ (processPattern geod lss st p).warnings := by
  unfold processPattern
  cases hm : matchPattern geod lss p with
  | some i => simpa using h
  | none => simp [h]

/-- Warnings survive the rest of the loop. -/
theorem runMatchFrom_warnings_mono (geod : Geod) (lss : List LineString) :
    ∀ (ps : List TripPattern) (st : MatchState) (w : String),
    w ∈ st.warnings → w ∈ (runMatchFrom geod lss st ps).warnings := by
  intro ps
  induction ps with
  | nil => intro st w h; exact h
  | cons q ps ih =>
      intro st w h
      simp only [runMatchFrom, List.foldl_cons]
      exact ih (processPattern geod lss st q) w
        (processPattern_warnings_mono geod lss st q w h)

/-- The shapes and the assignment log evolve independently of the
warning log. -/
theorem processPattern_state (geod : Geod) (lss : List LineString)
    (st1 st2 : MatchState) (p : TripPattern)
    (hs : st1.shapes = st2.shapes)
    (ht : st1.tripShapeIds = st2.tripShapeIds) :
    (processPattern geod lss st1 p).shapes =
      (processPattern geod lss st2 p).shapes ∧
    (processPattern geod lss st1 p).tripShapeIds =
      (processPattern geod lss st2 p).tripShapeIds := by
  unfold processPattern
  cases hm : matchPattern geod lss p with
  | some i => constructor <;> simp [hs, ht]
  | none => constructor <;> simp [hs, ht]

/-- Over the whole remaining loop: states agreeing on shapes and
assignments keep agreeing, whatever their warning logs. -/
theorem runMatchFrom_state (geod : Geod) (lss : List LineString) :
    ∀ (ps : List TripPattern) (st1 st2 : MatchState),
    st1.shapes = st2.shapes → st1.tripShapeIds = st2.tripShapeIds →
    (runMatchFrom geod lss st1 ps).shapes =
      (runMatchFrom geod lss st2 ps).shapes ∧
    (runMatchFrom geod lss st1 ps).tripShapeIds =
      (runMatchFrom geod lss st2 ps).tripShapeIds := by
  intro ps
  induction ps with
  | nil => intro st1 st2 hs ht; exact ⟨hs, ht⟩
  | cons q ps ih =>
      intro st1 st2 hs ht
      simp only [runMatchFrom, List.foldl_cons]
      rcases processPattern_state geod lss st1 st2 q hs ht with ⟨hs', ht'⟩
      exact ih (processPattern geod lss st1 q) (processPattern geod lss st2 q) hs' ht'

/-- A trip belonging to none of the processed patterns never receives an
assignment. -/
theorem runMatchFrom_no_assignment (geod : Geod) (lss : List LineString) :
    ∀ (ps : List TripPattern) (st : MatchState) (t : String),
    t ∉ st.tripShapeIds.map Prod.fst → (∀ q ∈ ps, t ∉ q.trips) →
    t ∉ (runMatchFrom geod lss st ps).tripShapeIds.map Prod.fst := by
  intro ps
  induction ps with
  | nil => intro st t h _; exact h
  | cons q ps ih =>
      intro st t h hq
      simp only [runMatchFrom, List.foldl_cons]
      apply ih (processPattern geod lss st q) t ?_
        (fun r hr => hq r (List.mem_cons.mpr (Or.inr hr)))
      unfold processPattern
      cases hm : matchPattern geod lss q with
      | some i =>
          simp only [List.map_append, List.mem_append, List.map_map]
          intro hmem
          rcases hmem with hmem | hmem
          · exact h hmem
          · rcases List.mem_map.mp hmem with ⟨a, ha, hat⟩
            have : t ∈ q.trips := by
              have : (Prod.fst ∘ fun t => (t, (createShape geod st.shapes.length
                (lss.getD i dfltLineString)).1)) a = a := rfl
              rw [this] at hat
              exact hat ▸ ha
            exact hq q (List.mem_cons_self q ps) this
      | none => simpa using h

/-- An unassigned trip id looks up to `none`. -/
theorem dictLookup_eq_none (l : List (String × String)) (t : String)
    (h : t ∉ l.map Prod.fst) : dictLookup l t = none := by
  unfold dictLookup
  have hf : l.reverse.find? (fun e => e.1 = t) = none := by
    apply List.find?_eq_none.mpr
    intro x hx
    simp only [decide_eq_true_eq]
    intro hxt
    exact h (List.mem_map.mpr ⟨x, List.mem_reverse.mp hx, hxt⟩)
  rw [hf]
  rfl

/-- C7: a trip pattern with no surviving candidate leaves a warning and
nothing else: the rendered shapes and the trip assignments are exactly
those of the run without that pattern (processing continues), its
pattern id is logged as a warning, and each of its trips is written to
`trips.txt` with an empty-string `shape_id`. -/
theorem c7_unmatched_pattern_isolated (geod : Geod) (lss : List LineString)
    (ps1 ps2 : List TripPattern) (p : TripPattern)
    (h : candidates geod p lss = []) :
    (runMatch geod lss (ps1 ++ p :: ps2)).shapes =
      (runMatch geod lss (ps1 ++ ps2)).shapes ∧
    (runMatch geod lss (ps1 ++ p :: ps2)).tripShapeIds =
      (runMatch geod lss (ps1 ++ ps2)).tripShapeIds ∧
    p.pid ∈ (runMatch geod lss (ps1 ++ p :: ps2)).warnings ∧
    (∀ t s0, t ∈ p.trips → (∀ q ∈ ps1 ++ ps2, t ∉ q.trips) →
      writeTripRow (runMatch geod lss (ps1 ++ p :: ps2)) ⟨t, s0⟩ = ⟨t, ""⟩) := by
  have hsplit1 : runMatch geod lss (ps1 ++ p :: ps2) =
      runMatchFrom geod lss
        (processPattern geod lss (runMatchFrom geod lss ⟨[], [], []⟩ ps1) p) ps2 := by
    unfold runMatch runMatchFrom
    rw [List.foldl_append, List.foldl_cons]
  have hsplit2 : runMatch geod lss (ps1 ++ ps2) =
      runMatchFrom geod lss (runMatchFrom geod lss ⟨[], [], []⟩ ps1) ps2 := by
    unfold runMatch runMatchFrom
    rw [List.foldl_append]
  have hpp := processPattern_unmatched geod lss
    (runMatchFrom geod lss ⟨[], [], []⟩ ps1) p h
  refine ⟨?_, ?_, ?_, ?_⟩
  · rw [hsplit1, hsplit2, hpp]
    exact (runMatchFrom_state geod lss ps2
      { runMatchFrom geod lss ⟨[], [], []⟩ ps1 with
          warnings := (runMatchFrom geod lss ⟨[], [], []⟩ ps1).warnings ++ [p.pid] }
      (runMatchFrom geod lss ⟨[], [], []⟩ ps1) rfl rfl).1
  · rw [hsplit1, hsplit2, hpp]
    exact (runMatchFrom_state geod lss ps2
      { runMatchFrom geod lss ⟨[], [], []⟩ ps1 with
          warnings := (runMatchFrom geod lss ⟨[], [], []⟩ ps1).warnings ++ [p.pid] }
      (runMatchFrom geod lss ⟨[], [], []⟩ ps1) rfl rfl).2
  · rw [hsplit1]
    apply runMatchFrom_warnings_mono
    rw [hpp]
    simp
  · intro t s0 _ hq
    have hk1 : t ∉ (runMatchFrom geod lss ⟨[], [], []⟩ ps1).tripShapeIds.map Prod.fst := by
      apply runMatchFrom_no_assignment geod lss ps1 ⟨[], [], []⟩ t (by simp)
      intro q hqq
      exact hq q (List.mem_append.mpr (Or.inl hqq))
    have hk2 : t ∉ (processPattern geod lss
        (runMatchFrom geod lss ⟨[], [], []⟩ ps1) p).tripShapeIds.map Prod.fst := by
      rw [hpp]
      exact hk1
    have hk3 : t ∉ (runMatch geod lss (ps1 ++ p :: ps2)).tripShapeIds.map Prod.fst := by
      rw [hsplit1]
      apply runMatchFrom_no_assignment geod lss ps2 _ t hk2
      intro q hqq
      exact hq q (List.mem_append.mpr (Or.inr hqq))
    unfold writeTripRow
    rw [dictLookup_eq_none _ _ hk3]

/-- Witness for C7: a run with a single pattern and no geometry at all —
the pattern is unmatched, warned about, and its trip written empty. -/
theorem c7_witness :
    (runMatch sqGeod [] ([] ++ patFar :: [])).shapes =
      (runMatch sqGeod [] ([] ++ [])).shapes ∧
    (runMatch sqGeod [] ([] ++ patFar :: [])).tripShapeIds =
      (runMatch sqGeod [] ([] ++ [])).tripShapeIds ∧
    patFar.pid ∈ (runMatch sqGeod [] ([] ++ patFar :: [])).warnings ∧
    (∀ t s0, t ∈ patFar.trips → (∀ q ∈ ([] ++ [] : List TripPattern), t ∉ q.trips) →
      writeTripRow (runMatch sqGeod [] ([] ++ patFar :: [])) ⟨t, s0⟩ = ⟨t, ""⟩) :=
  c7_unmatched_pattern_isolated sqGeod [] [] [] patFar rfl

/-! ## GeoJSON loading (`_read_geojson_file`, matcher.py 101–111) -/

/-- Parsed JSON documents. -/
inductive Json where
  | null : Json
  | bool : Bool → Json
  | num : ℚ → Json
  | str : String → Json
  | arr : List Json → Json
  | obj : List (String × Json) → Json

/-- The Python exceptions the loader can raise.  `inputError` models the
spec's `InputError` taxonomy entry; the source never defines or raises
such a class. -/
inductive PyExc where
  | jsonDecodeError : PyExc
  | keyError : String → PyExc
  | typeError : PyExc
  | valueError : PyExc
  | indexError : PyExc
  | inputError : PyExc
deriving DecidableEq, Repr

/-- Python `==` against a string literal. -/
def Json.isStr (s : String) : Json → Bool
  | .str t => t = s
  | _ => false

/-- Python subscript `j[k]`: `KeyError` on an object missing the key,
`TypeError` on a non-object. -/
def jsonGet (j : Json) (k : String) : Except PyExc Json :=
  match j with
  | .obj fields =>
      match fields.find? (fun e => e.1 = k) with
      | some e => .ok e.2
      | none => .error (.keyError k)
  | _ => .error .typeError

/-- `Point(coordinate[0], coordinate[1])` (matcher.py line 109):
coordinates must be an array of at least two numbers. -/
def toPoint (j : Json) : Except PyExc Point :=
  match j with
  | .arr (x :: y :: _) =>
      match x, y with
      | .num a, .num b => .ok ⟨a, b⟩
      | _, _ => .error .typeError
  | .arr _ => .error .indexError
  | _ => .error .typeError

/-- One entry of the `features` array (matcher.py 104–111): a `Feature`
whose geometry is a `LineString` contributes a linestring (shapely
rejects fewer than two points); every other entry is skipped silently. -/
def processFeature (f : Json) : Except PyExc (Option LineString) := do
  let t ← jsonGet f "type"
  if t.isStr "Feature" then do
    let g ← jsonGet f "geometry"
    let gt ← jsonGet g "type"
    if gt.isStr "LineString" then do
      let cs ← jsonGet g "coordinates"
      match cs with
      | .arr items => do
          let pts ← items.mapM toPoint
          match pts with
          | p :: q :: rest => pure (some ⟨p, q, rest⟩)
          | _ => .error .valueError
      | _ => .error .typeError
    else pure none
  else pure none

/-- `_read_geojson_file` (matcher.py 101–111), over the outcome of
`json.load`: `none` models a source that is not valid JSON
(`json.JSONDecodeError`); a parsed document is subscripted at
`features`, and the `LineString` features are collected in order. -/
def readGeojsonFile (parsed : Option Json) : Except PyExc (List LineString) :=
  match parsed with
  | none => .error .jsonDecodeError
  | some geojson => do
      let features ← jsonGet geojson "features"
      match features with
      | .arr fs => do
          let results ← fs.mapM processFeature
          pure (results.filterMap id)
      | _ => .error .typeError

/-- C8 counterexample: invalid JSON fails with `JSONDecodeError` and a
parsed object lacking a `features` entry fails with `KeyError`; neither
failure is an `InputError` — no such class exists in the code. -/
theorem c8_counterexample :
    readGeojsonFile none = .error .jsonDecodeError ∧
    readGeojsonFile (some (.obj [])) = .error (.keyError "features") ∧
    PyExc.jsonDecodeError ≠ PyExc.inputError ∧
    PyExc.keyError "features" ≠ PyExc.inputError := by
  refine ⟨rfl, rfl, by decide, by decide⟩

/-- C8 (amended): loading a source that does not parse as valid JSON
fails with `json.JSONDecodeError`, and loading a parsed object that
lacks a `features` entry fails with `KeyError "features"` — not with an
`InputError`, which the code never defines. -/
theorem c8_loading_failures (fields : List (String × Json))
    (h : fields.find? (fun e => e.1 = "features") = none) :
    readGeojsonFile none = .error .jsonDecodeError ∧
    readGeojsonFile (some (.obj fields)) = .error (.keyError "features") ∧
    readGeojsonFile (some (.obj fields)) ≠ .error .inputError := by
  have hj : jsonGet (.obj fields) "features" = .error (.keyError "features") := by
    simp only [jsonGet, h]
  have hr : readGeojsonFile (some (.obj fields)) =
      .error (.keyError "features") := by
    simp only [readGeojsonFile, hj]
    rfl
  refine ⟨rfl, hr, ?_⟩
  rw [hr]
  intro hcontra
  have h2 : PyExc.keyError "features" = PyExc.inputError := by
    injection hcontra
  exact absurd h2 (by decide)

/-- Witness for the amended C8 theorem at the empty object. -/
theorem c8_witness :
    readGeojsonFile none = .error .jsonDecodeError ∧
    readGeojsonFile (some (.obj [])) = .error (.keyError "features") ∧
    readGeojsonFile (some (.obj [])) ≠ .error .inputError :=
  c8_loading_failures [] rfl

/-! ## The full pipeline (`run`, matcher.py 38–99) and the CLI
(`__main__.py` 12–19) -/

/-- One row of `stops.txt` (matcher.py 117–123). -/
structure StopRow where
  stop_id : String
  stop_lon : ℚ
  stop_lat : ℚ
deriving DecidableEq, Repr

/-- `stop_coordinate_index[stop_id]` (matcher.py 116–123 and 144): dict
assignment lets later rows overwrite earlier ones; an unknown stop id
raises `KeyError`. -/
def lookupStop (stops : List StopRow) (sid : String) : Except PyExc Point :=
  match stops.reverse.find? (fun r => r.stop_id = sid) with
  | some r => .ok ⟨r.stop_lon, r.stop_lat⟩
  | none => .error (.keyError sid)

/-- One step of the pattern-index construction (matcher.py 138–149): a
trip whose joined pattern id is new creates the pattern, mapping its
stop ids to coordinates; every trip is appended to its pattern's trip
list.  The empty-stop-list case cannot arise (the grouped lists are
nonempty by construction); it is modelled as the `IndexError` the
subsequent `coords[0]` access would raise. -/
def addTripToIndex (stops : List StopRow) (acc : List TripPattern)
    (tid : String) (stopIds : List String) :
    Except PyExc (List TripPattern) :=
  let pid := patternId stopIds
  if acc.any (fun q => q.pid = pid) then
    .ok (acc.map (fun q => if q.pid = pid then
      { q with trips := q.trips ++ [tid] } else q))
  else
    match stopIds with
    | [] => .error .indexError
    | s0 :: srest => do
        let c0 ← lookupStop stops s0
        let crest ← srest.mapM (lookupStop stops)
        .ok (acc ++ [⟨pid, c0, crest, [tid]⟩])

/-- `_read_gtfs_index` (matcher.py 113–153): group the stop_times rows
per trip in file order, then fold the trips into patterns. -/
def readGtfsIndex (stops : List StopRow) (stopTimes : List StopTimeRow) :
    Except PyExc (List TripPattern) :=
  (tripStopIdLists stopTimes).foldlM
    (fun acc e => addTripToIndex stops acc e.1 e.2) []

/-- The observable output of a run: the data rows of the rewritten
`shapes.txt`, the rewritten `trips.txt`, and the warning log. -/
structure GtfsOutput where
  shapesRows : List ShapeRecord
  tripsRows : List TripRow
  warnings : List String
deriving DecidableEq, Repr

/-- The whole transform (`GeojsonMatcher.__init__` plus `run`): load the
GeoJSON documents in order, build the GTFS index, match every pattern,
and rewrite `shapes.txt` and `trips.txt`. -/
def pipeline (geod : Geod) (geojsonDocs : List (Option Json))
    (stops : List StopRow) (stopTimes : List StopTimeRow)
    (trips : List TripRow) : Except PyExc GtfsOutput := do
  let parts ← geojsonDocs.mapM readGeojsonFile
  let pats ← readGtfsIndex stops stopTimes
  let st := runMatch geod parts.flatten pats
  pure ⟨(st.shapes.map Prod.snd).flatten,
    trips.map (writeTripRow st), st.warnings⟩

/-- C9: the whole transform is a deterministic function of the GeoJSON
input (documents in load order), the GTFS input and the geometry
primitives: runs over equal inputs produce identical shape rows,
identical trip-to-shape assignments and identical warnings. -/
theorem c9_deterministic (geod1 geod2 : Geod)
    (docs1 docs2 : List (Option Json)) (stops1 stops2 : List StopRow)
    (stopTimes1 stopTimes2 : List StopTimeRow) (trips1 trips2 : List TripRow)
    (h1 : geod1 = geod2) (h2 : docs1 = docs2) (h3 : stops1 = stops2)
    (h4 : stopTimes1 = stopTimes2) (h5 : trips1 = trips2) :
    pipeline geod1 docs1 stops1 stopTimes1 trips1 =
      pipeline geod2 docs2 stops2 stopTimes2 trips2 := by
  rw [h1, h2, h3, h4, h5]

/-- Witness for C9: two runs over one concrete input coincide. -/
theorem c9_witness :
    pipeline sqGeod [some (.obj [("features", .arr [])])] [] [] [⟨"t", ""⟩] =
      pipeline sqGeod [some (.obj [("features", .arr [])])] [] [] [⟨"t", ""⟩] :=
  c9_deterministic _ _ _ _ _ _ _ _ _ _ rfl rfl rfl rfl rfl

/-- A Python value passed through the CLI; `--config` defaults to
`None`. -/
inductive PyVal where
  | none : PyVal
  | str : String → PyVal
deriving DecidableEq, Repr

/-- `GeojsonMatcher.__init__(self, geojson_input)` (matcher.py line 15)
accepts exactly one positional argument besides `self`; any other arity
raises `TypeError` before the constructor body runs. -/
def callGeojsonMatcherInit (args : List PyVal) : Except PyExc Unit :=
  if args.length = 1 then .ok () else .error .typeError

/-- Observable event of the `match` command: `matcher.run(input,
output)` was reached with these arguments. -/
inductive CliEvent where
  | matcherRun : PyVal → PyVal → CliEvent
deriving DecidableEq, Repr

/-- The CLI `match` command (__main__.py lines 17–19): construct
`GeojsonMatcher(geojson, config)` — two positional arguments — then call
`matcher.run(input, output)`. -/
def matchCommand (input output geojson config : PyVal) :
    List CliEvent × Except PyExc Unit :=
  match callGeojsonMatcherInit [geojson, config] with
  | .error e => ([], .error e)
  | .ok _ => ([CliEvent.matcherRun input output], .ok ())

/-- C10: every invocation of the CLI `match` command raises `TypeError`
while constructing the matcher — the call passes two positional
arguments (`geojson`, `config`) to a constructor accepting one — so
`matcher.run` is never reached and no matching is performed. -/
theorem c10_cli_always_type_error (input output geojson config : PyVal) :
    matchCommand input output geojson config = ([], .error .typeError) := rfl
